import Mathlib

/-!
Verification of the `sheet` streaming table editor (`src/sheet.c`).

The development is a shallow embedding of the program.  A C row buffer is a
fixed 10240-byte, NUL-padded char array whose meaningful content is the
NUL-terminated prefix (`row->size` is kept equal to `strlen(row->data)` by
every operation); we represent that meaningful content as a `List Char`.
Reading an index beyond the content returns `'\0'` in C (thanks to the
`memset` calls), which in the list model corresponds to running off the end
of the list; the loops below are direct renderings of the C loops under this
correspondence.  Numeric parameters are C `int`s, modelled as `Int`.
-/

set_option autoImplicit false

namespace Sheet

/-- Maximum size of one row in bytes (`MAX_ROW_SIZE` in sheet.c). -/
def maxRowSize : Nat := 10 * 1024

/-- Maximum size of a table cell in bytes (`MAX_CELL_SIZE` in sheet.c). -/
def maxCellSize : Nat := 100

/-- The distinct fatal error messages the program can emit (each constructor
stands for one of the Czech message strings passed to `writeErrorMessage`).
`badRange` is the shared `drows`/`dcols` message, `invalidNumber` the shared
`round`/`int` message, `selectionOnTableEdit` the "Funkce pro vyber radku neni
mozne pouzit na funkce menici tabulku." message of `main`, and so on. -/
inductive Err where
  | badRowColNumber
  | badRowsFrom
  | badRowsTo
  | badRowsOrder
  | badSelectColumn
  | unknownFunction
  | selectionOnTableEdit
  | multipleDataFunctions
  | mixedEditCategories
  | badRange
  | rowOverflowIcol
  | rowOverflowAcol
  | valueTooLarge
  | invalidNumber
  deriving Repr, DecidableEq

/-- The `Row` struct of sheet.c: `data` is the meaningful (NUL-terminated)
content of the 10240-byte buffer; the C `size` field always equals
`strlen(data)`, i.e. `data.length` here, so it is not duplicated. -/
structure Row where
  data : List Char
  number : Int
  deleted : Bool
  last : Bool
  deriving Repr, DecidableEq

/-- A byte ends a column when it is the delimiter or the terminating newline
(the two conditions tested together throughout sheet.c). -/
def isColEnd (d c : Char) : Bool := c == d || c == '\n'

/-- The scanning loop of `getColumnValue`: walk the row bytes, bump the column
counter on each delimiter or newline, and collect the bytes whose counter
equals the requested column. -/
def getLoop (col : Int) (d : Char) : List Char → Int → List Char
  | [], _ => []
  | c :: rest, counter =>
    if isColEnd d c then getLoop col d rest (counter + 1)
    else if counter = col then c :: getLoop col d rest counter
    else getLoop col d rest counter

/-- `getColumnValue` of sheet.c.  The output buffer is `memset` to zero first,
so a column number beyond the column count yields the cleared (empty) value;
the function itself cannot fail (it returns `void` in C). -/
def getColumnValue (data : List Char) (col : Int) (d : Char) (n : Int) : List Char :=
  if col > n then [] else getLoop col d data 1

/-- The splicing loop of `setColumnValue`: bytes are copied from the backup in
lockstep until the counter reaches the target column; there the new value is
written and the backup index is advanced past the old column content (the
`while` loop over non-delimiter bytes, i.e. a `dropWhile`); the remainder of
the backup, starting with the column's closing delimiter or newline, is then
copied verbatim (the counter has passed `col` and can never equal it again). -/
def setLoop (value : List Char) (col : Int) (d : Char) : List Char → Int → List Char
  | [], _ => []
  | c :: rest, counter =>
    if counter = col then
      value ++ (c :: rest).dropWhile (fun b => !(isColEnd d b))
    else c :: setLoop value col d rest (counter + (if isColEnd d c then 1 else 0))

/-- `setColumnValue` of sheet.c.  A column number beyond the column count makes
the function return without touching the row; afterwards `row->size` is
recomputed from `strlen` (here: the list length).  The final
`row->data[dataIndex] = '\n'` of the C source executes with
`dataIndex ≥ MAX_ROW_SIZE` (the copying loop only exits once `dataIndex`
reaches the capacity), i.e. it writes past the NUL padding of the buffer and
never lands inside the NUL-terminated content, so it has no effect on the
content; the newline of a row survives because the loop itself copies it (it
is the closing byte of the last column).  Like `getColumnValue`, the function
returns `void`: it has no error result at all. -/
def setColumnValue (value : List Char) (data : List Char) (col : Int) (d : Char) (n : Int) :
    List Char :=
  if col > n then data else setLoop value col d data 1

/-- The rebuilding loop of `dcols`: bytes whose column counter lies outside
`[lo, hi]` are appended to the output; a skipped byte that is the last byte of
the row (`j == row->size - 1`) additionally removes the already-copied byte
preceding it (`dataIndex--` followed by writing `'\0'`, i.e. `dropLast`; for
an empty output the C would write at index -1, an out-of-bounds write on a
row whose every column is deleted).  Only delimiter bytes advance the counter
here (`'\n'` does not). -/
def dcolsLoop (lo hi : Int) (d : Char) : List Char → Int → List Char → List Char
  | [], _, acc => acc
  | c :: rest, counter, acc =>
    let acc' :=
      if ¬(lo ≤ counter ∧ counter ≤ hi) then acc ++ [c]
      else if rest = [] then acc.dropLast
      else acc
    dcolsLoop lo hi d rest (if c = d then counter + 1 else counter) acc'

/-- The size-recount step at the end of `dcols`: `row->size = strlen(...)` and
re-append the newline when the last content byte is not one (for empty
content the C reads index -1; the model appends the newline, matching the C
behaviour whenever the byte before the buffer is not `'\n'`). -/
def dcolsNewline (content : List Char) : List Char :=
  if content.getLast? = some '\n' then content else content ++ ['\n']

/-- `dcols` of sheet.c: `from > to` is rejected as `badRange` before any byte
of the row is touched; otherwise the row is rebuilt without the columns in
range and the newline restored. -/
def dcols (lo hi : Int) (data : List Char) (d : Char) : Option Err × List Char :=
  if lo > hi then (some .badRange, data)
  else (none, dcolsNewline (dcolsLoop lo hi d data 1 []))

/-- `drows` of sheet.c: `from > to` is rejected as `badRange` before the row is
touched; otherwise the row is marked deleted iff its number lies in range. -/
def drows (lo hi : Int) (row : Row) : Option Err × Row :=
  if lo > hi then (some .badRange, row)
  else (none, if lo ≤ row.number ∧ row.number ≤ hi then { row with deleted := true } else row)

/-- `icol` of sheet.c: fails when the one-byte growth would exceed the row
capacity; otherwise writes `delimiter ++ value` over the selected column and
bumps the shared column count only while processing row number 1. -/
def icol (col : Int) (row : Row) (d : Char) (n : Int) : Option Err × Row × Int :=
  if row.data.length + 1 > maxRowSize then (some .rowOverflowIcol, row, n)
  else
    let v := getColumnValue row.data col d n
    (none, { row with data := setColumnValue (d :: v) row.data col d n },
      if row.number = 1 then n + 1 else n)

/-- `acol` of sheet.c: fails when the one-byte growth would exceed the row
capacity; otherwise overwrites the trailing byte (the newline) with the
delimiter and appends a fresh newline, bumping the shared column count only
while processing row number 1. -/
def acol (row : Row) (d : Char) (n : Int) : Option Err × Row × Int :=
  if row.data.length + 1 > maxRowSize then (some .rowOverflowAcol, row, n)
  else (none, { row with data := row.data.dropLast ++ [d, '\n'] },
    if row.number = 1 then n + 1 else n)

/-- `writeNewRow` of sheet.c: `numberOfColumns - 1` delimiter bytes followed by
a newline (a non-positive count prints no delimiter). -/
def newRow (d : Char) (n : Int) : List Char := List.replicate (n - 1).toNat d ++ ['\n']

/-- `cset` of sheet.c: values longer than the cell capacity are rejected,
otherwise the column is overwritten. -/
def cset (col : Int) (value : List Char) (row : Row) (d : Char) (n : Int) : Option Err × Row :=
  if value.length > maxCellSize then (some .valueTooLarge, row)
  else (none, { row with data := setColumnValue value row.data col d n })

/-- The per-character case shift of `changeColumnCase` (`'a' - 'A'` is 32). -/
def caseShift (lower : Bool) (c : Char) : Char :=
  if lower then (if 'A' ≤ c ∧ c ≤ 'Z' then Char.ofNat (c.toNat + 32) else c)
  else (if 'a' ≤ c ∧ c ≤ 'z' then Char.ofNat (c.toNat - 32) else c)

/-- `changeColumnCase` of sheet.c (`tolower`/`toupper`): read the column, shift
the ASCII letters of the selected case, write the result back. -/
def changeColumnCase (lower : Bool) (col : Int) (row : Row) (d : Char) (n : Int) : Row :=
  let v := getColumnValue row.data col d n
  { row with data := setColumnValue (v.map (caseShift lower)) row.data col d n }

/-- The character loop of `isValidNumber` in sheet.c, including its faulty
grouping: the test is
`((number[i] < '0' || number[i] > '9') && (i == 0 && (number[i] != '-')))`,
which is false for every `i ≥ 1` regardless of the character, so only the
first character is ever examined. -/
def isValidNumberLoop : List Char → Nat → Bool → Bool
  | [], _, _ => true
  | c :: rest, i, dp =>
    if (c < '0' ∨ c > '9') ∧ (i = 0 ∧ c ≠ '-') then
      if c = '.' ∧ dp = false then isValidNumberLoop rest (i + 1) true
      else false
    else isValidNumberLoop rest (i + 1) dp

/-- `isValidNumber` of sheet.c. -/
def isValidNumber (v : List Char) : Bool := isValidNumberLoop v 0 false

/-- The numeric prefix accepted by the C library `strtod` from a cell value,
kept exactly: leading blanks skipped, optional sign, integer digits, optional
`'.'` with fraction digits.  Returned as (negative?, integer part, fraction
digits).  This supports the success payloads of `round`/`int`; no claim's
theorem depends on it. -/
def strtodParts (v : List Char) : Bool × Nat × List Char :=
  let v1 := v.dropWhile (fun c => c == ' ' || c == '\t')
  let signAndRest : Bool × List Char :=
    match v1 with
    | '-' :: t => (true, t)
    | '+' :: t => (false, t)
    | _ => (false, v1)
  let ip := signAndRest.2.takeWhile Char.isDigit
  let v3 := signAndRest.2.drop ip.length
  let fp : List Char :=
    match v3 with
    | '.' :: t => t.takeWhile Char.isDigit
    | _ => []
  (signAndRest.1, ip.foldl (fun a c => a * 10 + (c.toNat - 48)) 0, fp)

/-- The value written back by `int` (`sprintf("%d", (int)strtod(value, NULL))`):
the parsed value truncated toward zero.  Exact for the in-range values the
program is meant for (the C cast is undefined beyond `int` range); no claim's
theorem depends on this payload. -/
def intFormat (v : List Char) : List Char :=
  let p := strtodParts v
  (toString (if p.1 then -(p.2.1 : Int) else (p.2.1 : Int))).toList

/-- The value written back by `round` (`sprintf("%.f", strtod(value, NULL))`):
the parsed value rounded to an integer.  The model rounds half away from zero
on the decimal digits, which agrees with the C double pipeline away from
representation-error corner cases (and prints `-0` as `0`); no claim's theorem
depends on this payload. -/
def roundFormat (v : List Char) : List Char :=
  let p := strtodParts v
  let r := if 5 ≤ (p.2.2.headD '0').toNat - 48 then p.2.1 + 1 else p.2.1
  (toString (if p.1 then -(r : Int) else (r : Int))).toList

/-- `roundColumnValue` of sheet.c: the cell must pass `isValidNumber`, else the
`invalidNumber` error; on success the rounded value is written back. -/
def roundColumnValue (col : Int) (row : Row) (d : Char) (n : Int) : Option Err × Row :=
  let v := getColumnValue row.data col d n
  if isValidNumber v = false then (some .invalidNumber, row)
  else (none, { row with data := setColumnValue (roundFormat v) row.data col d n })

/-- `removeColumnDecimalPart` of sheet.c (the `int` function): the cell must
pass `isValidNumber`, else the `invalidNumber` error (the same message string
as `round`); on success the truncated value is written back. -/
def removeColumnDecimalPart (col : Int) (row : Row) (d : Char) (n : Int) : Option Err × Row :=
  let v := getColumnValue row.data col d n
  if isValidNumber v = false then (some .invalidNumber, row)
  else (none, { row with data := setColumnValue (intFormat v) row.data col d n })

/-- `copy` of sheet.c: silently a no-op when either column is out of range. -/
def copy (src dst : Int) (row : Row) (d : Char) (n : Int) : Row :=
  if src > n ∨ dst > n then row
  else { row with data := setColumnValue (getColumnValue row.data src d n) row.data dst d n }

/-- `swap` of sheet.c: silently a no-op when either column is out of range;
otherwise both values are read and written back crosswise. -/
def swap (first second : Int) (row : Row) (d : Char) (n : Int) : Row :=
  if first > n ∨ second > n then row
  else
    let fv := getColumnValue row.data first d n
    let sv := getColumnValue row.data second d n
    { row with data := setColumnValue sv (setColumnValue fv row.data second d n) first d n }

/-- The row-content transformation of `move` in sheet.c: no-op when a column is
out of range or the two columns coincide; otherwise read both values, delete
column `col` (the `ErrorInfo` of `dcols` is ignored by the C code), shift the
target index left when it lay beyond the deleted column, and write
`moving ++ delimiter ++ second` over the target column.  The function returns
`void` in C: no ordering between the parameters is checked and no error can be
reported. -/
def moveData (col bcol : Int) (data : List Char) (d : Char) (n : Int) : List Char :=
  if col > n ∨ bcol > n then data
  else if col = bcol then data
  else
    let moving := getColumnValue data col d n
    let second := getColumnValue data bcol d n
    let data' := (dcols col col data d).2
    let bcol' := if bcol > col then bcol - 1 else bcol
    setColumnValue (moving ++ d :: second) data' bcol' d n

/-- `move` of sheet.c, as a `Row` transformation. -/
def move (col bcol : Int) (row : Row) (d : Char) (n : Int) : Row :=
  { row with data := moveData col bcol row.data d n }

/-- The `SelectFunction` struct of sheet.c: a selection attached to a function.
An empty `name` means no selection.  The parser only ever assigns
`params[0]`, `params[1]` and `strParams[1]`; the model zero-fills what the C
leaves uninitialised (those slots are never read on any reachable path). -/
structure SelectFunction where
  name : String
  params : List Int
  strParams : List (List Char)
  deriving Repr, DecidableEq

/-- The `Function` struct of sheet.c (one compiled command-line operation). -/
structure Function where
  name : String
  params : List Int
  strParams : List (List Char)
  selectFunction : SelectFunction
  deriving Repr, DecidableEq

/-- Does `v` start with `p`?  This is what the `beginswith` test of
`acceptsSelection` computes: `strstr(value, pattern)` finds the first
occurrence of the pattern and `streq(found, value)` holds exactly when that
occurrence is the whole value, i.e. when it sits at offset 0. -/
def startsWithL : List Char → List Char → Bool
  | [], _ => true
  | _ :: _, [] => false
  | p :: ps, v :: vs => p == v && startsWithL ps vs

/-- Does `p` occur as a contiguous substring of the second list?  This is the
`strstr(value, pattern) != NULL` test of the `contains` selection. -/
def occursIn (p : List Char) : List Char → Bool
  | [] => startsWithL p []
  | c :: vs => startsWithL p (c :: vs) || occursIn p vs

/-- `acceptsSelection` of sheet.c.  The sentinels are `NO_SELECTION = -1` and
`LAST_ROW_NUMBER = 0`.  The C function always returns a success `ErrorInfo`,
so the result is just the boolean. -/
def acceptsSelection (row : Row) (sel : SelectFunction) (d : Char) (n : Int) : Bool :=
  if sel.name = "rows" then
    let p0 := sel.params.getD 0 0
    let p1 := sel.params.getD 1 0
    if p0 ≠ -1 ∧ p1 ≠ 0 then decide (p0 ≤ row.number ∧ row.number ≤ p1)
    else if p0 = 0 ∧ p1 = 0 then row.last
    else if p0 ≠ -1 ∧ p1 = 0 then decide (p0 ≤ row.number)
    else false
  else if sel.name = "beginswith" then
    startsWithL (sel.strParams.getD 1 []) (getColumnValue row.data (sel.params.getD 0 0) d n)
  else if sel.name = "contains" then
    occursIn (sel.strParams.getD 1 []) (getColumnValue row.data (sel.params.getD 0 0) d n)
  else true

/-- The three-way result of `applyTableEditingFunction`: an error
(`ErrorInfo.error = true`), success (`message == NULL`), or the
`"NO_FUNCTION_USED"` sentinel telling `main` the operation was not a
table-editing one. -/
inductive TEResult where
  | applied (row : Row) (ncols : Int) (out : List (List Char))
  | failed (e : Err)
  | noFn
  deriving Repr, DecidableEq

/-- `applyTableEditingFunction` of sheet.c.  `drow` (resp. `dcol`) copies its
single parameter into the second slot and then runs `drows` (resp. `dcols`).
`irow` emits an extra blank row in front of the current one when the row
number matches.  `out` collects what the branch printed. -/
def applyTableEditingFunction (row : Row) (f : Function) (d : Char) (n : Int) : TEResult :=
  if f.name = "irow" then
    .applied row n (if row.number = f.params.getD 0 0 then [newRow d n] else [])
  else if f.name = "drow" ∨ f.name = "drows" then
    match drows (f.params.getD 0 0)
      (if f.name = "drow" then f.params.getD 0 0 else f.params.getD 1 0) row with
    | (some e, _) => .failed e
    | (none, r) => .applied r n []
  else if f.name = "icol" then
    match icol (f.params.getD 0 0) row d n with
    | (some e, _, _) => .failed e
    | (none, r, n') => .applied r n' []
  else if f.name = "acol" then
    match acol row d n with
    | (some e, _, _) => .failed e
    | (none, r, n') => .applied r n' []
  else if f.name = "dcol" ∨ f.name = "dcols" then
    match dcols (f.params.getD 0 0)
      (if f.name = "dcol" then f.params.getD 0 0 else f.params.getD 1 0) row.data d with
    | (some e, _) => .failed e
    | (none, data') => .applied { row with data := data' } n []
  else .noFn

/-- The three-way result of `applyDataProcessingFunction`. -/
inductive DPResult where
  | applied (row : Row)
  | failed (e : Err)
  | noFn
  deriving Repr, DecidableEq

/-- `applyDataProcessingFunction` of sheet.c.  `cset` takes its value from
`strParams[1]`. -/
def applyDataProcessingFunction (row : Row) (f : Function) (d : Char) (n : Int) : DPResult :=
  if f.name = "cset" then
    match cset (f.params.getD 0 0) (f.strParams.getD 1 []) row d n with
    | (some e, _) => .failed e
    | (none, r) => .applied r
  else if f.name = "tolower" then .applied (changeColumnCase true (f.params.getD 0 0) row d n)
  else if f.name = "toupper" then .applied (changeColumnCase false (f.params.getD 0 0) row d n)
  else if f.name = "round" then
    match roundColumnValue (f.params.getD 0 0) row d n with
    | (some e, _) => .failed e
    | (none, r) => .applied r
  else if f.name = "int" then
    match removeColumnDecimalPart (f.params.getD 0 0) row d n with
    | (some e, _) => .failed e
    | (none, r) => .applied r
  else if f.name = "copy" then .applied (copy (f.params.getD 0 0) (f.params.getD 1 0) row d n)
  else if f.name = "swap" then .applied (swap (f.params.getD 0 0) (f.params.getD 1 0) row d n)
  else if f.name = "move" then .applied (move (f.params.getD 0 0) (f.params.getD 1 0) row d n)
  else .noFn

/-- The per-row operation loop of `main` (the `while (functions[i].name[0])`
loop), carrying the current row, the shared column count, the two exclusivity
flags `tableChanged`/`dataChanged` and the lines printed so far.  A successful
table edit first forbids an attached selection, then stops the loop when the
row became deleted (without setting `tableChanged`); a data-processing
function first enforces single use, then evaluates its selection, then
applies. -/
def processOps (d : Char) : List Function → Row → Int → Bool → Bool → List (List Char) →
    Except Err (Row × Int × Bool × Bool × List (List Char))
  | [], row, n, tc, dc, out => .ok (row, n, tc, dc, out)
  | f :: rest, row, n, tc, dc, out =>
    match applyTableEditingFunction row f d n with
    | .failed e => .error e
    | .applied r' n' out' =>
      if f.selectFunction.name ≠ "" then .error .selectionOnTableEdit
      else if r'.deleted then .ok (r', n', tc, dc, out ++ out')
      else processOps d rest r' n' true dc (out ++ out')
    | .noFn =>
      if dc then .error .multipleDataFunctions
      else if acceptsSelection row f.selectFunction d n = false then
        processOps d rest row n tc dc out
      else
        match applyDataProcessingFunction row f d n with
        | .failed e => .error e
        | .applied r' => processOps d rest r' n tc true out
        | .noFn => processOps d rest row n tc dc out

/-- One row's trip through `main`'s engine: run the operation loop, enforce
the table-versus-data exclusivity, then emit the row unless deleted.  The
result carries the final row, the (possibly updated) shared column count and
everything printed for this row, in order. -/
def processRow (fs : List Function) (row : Row) (d : Char) (n : Int) :
    Except Err (Row × Int × List (List Char)) :=
  match processOps d fs row n false false [] with
  | .error e => .error e
  | .ok (r, n', tc, dc, out) =>
    if tc ∧ dc then .error .mixedEditCategories
    else .ok (r, n', out ++ if r.deleted then [] else [r.data])

/-- The C library `strtol(value, NULL, 10)`: optional blanks, optional sign,
then the longest digit prefix (0 when there is none); trailing junk ignored
(overflow clamping omitted, the arguments of interest are small). -/
def strtolInt (s : String) : Int :=
  let cs := s.toList.dropWhile (fun c => c == ' ' || c == '\t' || c == '\n' || c == '\r')
  let signAndRest : Bool × List Char :=
    match cs with
    | '-' :: t => (true, t)
    | '+' :: t => (false, t)
    | _ => (false, cs)
  let v : Int := (signAndRest.2.takeWhile Char.isDigit).foldl
    (fun a c => a * 10 + ((c.toNat : Int) - 48)) 0
  if signAndRest.1 then -v else v

/-- `toRowColNum` of sheet.c: `"-"` maps to the `LAST_ROW_NUMBER` sentinel 0
when allowed; otherwise the `strtol` result when it is at least 1, else the
`INVALID_NUMBER` sentinel -1. -/
def toRowColNum (s : String) (specialAllowed : Bool) : Int :=
  if s = "-" ∧ specialAllowed = true then 0
  else
    let r := strtolInt s
    if r ≥ 1 then r else -1

/-- The name/arity table of `getFunctionFromArgs` (`functions` and `funcArgs`
in sheet.c). -/
def functionTable : List (String × Nat) :=
  [("arow", 0), ("irow", 1), ("drow", 1), ("drows", 2), ("icol", 1), ("acol", 0),
   ("dcol", 1), ("dcols", 2), ("cset", 2), ("tolower", 1), ("toupper", 1), ("round", 1),
   ("int", 1), ("copy", 2), ("swap", 2), ("move", 2)]

/-- The argument-collection loop of `getFunctionFromArgs`: for each of the
function's `k` parameters, the token after the name is converted with
`toRowColNum` and stored (the C stores the conversion before bounds-checking
the index; an out-of-range index reads `argv[argc] == NULL` in C and is
modelled as the empty token, which also converts to -1).  A conversion
failure is fatal except for the second parameter of `cset`, which is kept as
a string instead. -/
def parseParamsLoop (fname : String) (args : List String) (pos : Nat) :
    Nat → Nat → List Int → List (List Char) → Except Err (List Int × List (List Char))
  | _, 0, ps, sps => .ok (ps, sps)
  | i, k + 1, ps, sps =>
    let index := pos + i + 1
    let p := toRowColNum (args.getD index "") false
    let ps' := ps.set i p
    if index ≥ args.length ∨ p = -1 then
      if ¬(fname = "cset" ∧ i = 1) then .error .badRowColNumber
      else parseParamsLoop fname args pos (i + 1) k ps' (sps.set i (args.getD index "").toList)
    else parseParamsLoop fname args pos (i + 1) k ps' sps

/-- The `for (j = 0; j < 16; j++)` loop of `getFunctionFromArgs`, walking the
name table.  On every iteration the token at the current position is
re-examined: a match compiles the function (keeping whatever selection was
attached earlier); the selector tokens `rows`/`beginswith`/`contains` are
recognised in the `else if` chain of the same loop: they parse their
arguments, store the selection in the function under construction, advance
the position to the next token and let the scan continue with the remaining
table entries; any other token just clears the name field and moves on.
Falling off the table is the `unknownFunction` error. -/
def findFunctionLoop (args : List String) : List (String × Nat) → Nat → Function →
    Except Err (Function × Nat)
  | [], _, _ => .error .unknownFunction
  | (nm, ar) :: table, pos, f =>
    let tok := args.getD pos ""
    if tok = nm then
      match parseParamsLoop nm args pos 0 ar [0, 0, 0, 0] [[], [], [], []] with
      | .error e => .error e
      | .ok (ps, sps) => .ok ({ f with name := nm, params := ps, strParams := sps }, pos + ar)
    else if tok = "rows" then
      let p0 := toRowColNum (args.getD (pos + 1) "") true
      if p0 = -1 then .error .badRowsFrom
      else
        let p1 := toRowColNum (args.getD (pos + 2) "") true
        if p1 = -1 then .error .badRowsTo
        else if p1 ≠ 0 ∧ p1 < p0 then .error .badRowsOrder
        else findFunctionLoop args table (pos + 3)
          { f with selectFunction := ⟨"rows", [p0, p1], [[], []]⟩ }
    else if tok = "beginswith" then
      let p0 := toRowColNum (args.getD (pos + 1) "") false
      if p0 = -1 then .error .badSelectColumn
      else findFunctionLoop args table (pos + 3)
        { f with selectFunction := ⟨"beginswith", [p0, 0], [[], (args.getD (pos + 2) "").toList]⟩ }
    else if tok = "contains" then
      let p0 := toRowColNum (args.getD (pos + 1) "") false
      if p0 = -1 then .error .badSelectColumn
      else findFunctionLoop args table (pos + 3)
        { f with selectFunction := ⟨"contains", [p0, 0], [[], (args.getD (pos + 2) "").toList]⟩ }
    else findFunctionLoop args table pos { f with name := "" }

/-- `getFunctionFromArgs` of sheet.c: scan the whole name table starting from
a function whose selection is reset (`memset` of the name); the fields the C
leaves uninitialised are zero-filled here (they are never read before being
assigned on any reachable path). -/
def getFunctionFromArgs (args : List String) (pos : Nat) : Except Err (Function × Nat) :=
  findFunctionLoop args functionTable pos ⟨"", [0, 0, 0, 0], [[], [], [], []], ⟨"", [0, 0], [[], []]⟩⟩

/-- The `for (i = args->skipped; i < args->size; i++)` loop of
`parseInputArguments`: each `getFunctionFromArgs` call advances the position,
and the loop increment steps past the last consumed token.  The fuel is the
argument count; every call consumes at least one token, so the fuel never
runs out (the `.ok acc` fallback is unreachable). -/
def parseLoop (args : List String) : Nat → Nat → List Function → Except Err (List Function)
  | 0, _, acc => .ok acc
  | fuel + 1, pos, acc =>
    if pos ≥ args.length then .ok acc
    else
      match getFunctionFromArgs args pos with
      | .error e => .error e
      | .ok (f, pos') => parseLoop args fuel (pos' + 1) (acc ++ [f])

/-- `parseInputArguments` of sheet.c: compile every token from `skipped` on
into a `Function` list (`args` is the whole `argv`, index 0 the program
name). -/
def parseInputArguments (args : List String) (skipped : Nat) : Except Err (List Function) :=
  parseLoop args args.length skipped []

/-- `applyAppendRowFunctions` of sheet.c: after the input ends, the loop scans
the RAW argument tokens (not the compiled operations) from `skipped` on and
prints one blank row per token equal to `"arow"`. -/
def applyAppendRowFunctions (args : List String) (skipped : Nat) (d : Char) (n : Int) :
    List (List Char) :=
  ((args.drop skipped).filter (fun t => t == "arow")).map (fun _ => newRow d n)

/-!  Spec-side vocabulary: rows as delimiter-joined cell lists.  These
definitions come from the specification's data model ("Column: the N-th
1-based maximal run of non-delimiter bytes, bounded by delimiters or the
terminating newline") and are used to state the cell-level behaviour of the
byte-level functions above. -/

/-- Cells joined with a single delimiter byte between consecutive cells. -/
def joinCells (d : Char) : List (List Char) → List Char
  | [] => []
  | [c] => c
  | c :: c' :: cs => c ++ d :: joinCells d (c' :: cs)

/-- A full row: joined cells plus the terminating newline. -/
def mkRowData (d : Char) (cells : List (List Char)) : List Char :=
  joinCells d cells ++ ['\n']

/-- A well-formed cell contains neither the delimiter nor a newline. -/
def goodCell (d : Char) (cell : List Char) : Prop := ∀ c ∈ cell, c ≠ d ∧ c ≠ '\n'

/-- Modelled from the spec: "numeric means optional leading `-`, digits,
optional single `.` with digits" (the validation `Round`/`Int` are specified
to perform).  Stated here to compare against the program's `isValidNumber`. -/
def specNumeric (v : List Char) : Bool :=
  let v1 : List Char := match v with | '-' :: t => t | _ => v
  let ds := v1.takeWhile Char.isDigit
  let rest := v1.drop ds.length
  decide (ds ≠ []) &&
    (match rest with
     | [] => true
     | '.' :: fs => decide (fs ≠ []) && fs.all Char.isDigit
     | _ => false)

/-- Insertion of an element before position `j` of a list (appends when `j`
is past the end). -/
def insertAt {α : Type} : Nat → α → List α → List α
  | 0, a, l => a :: l
  | _ + 1, a, [] => [a]
  | j + 1, a, h :: t => h :: insertAt j a t

/-- Removal of the element at position `j` of a list. -/
def removeAt {α : Type} : Nat → List α → List α
  | _, [] => []
  | 0, _ :: t => t
  | j + 1, h :: t => h :: removeAt j t

/-- The cell-level meaning of `move col bcol`: take cell `col` out and
re-insert it in front of the cell that was at `bcol` (1-based; after the
removal that cell sits one slot to the left when `bcol > col`). -/
def movedCells (col bcol : Nat) (cells : List (List Char)) : List (List Char) :=
  insertAt (if bcol > col then bcol - 2 else bcol - 1) (cells.getD (col - 1) [])
    (removeAt (col - 1) cells)

/-! Basic facts about the helper vocabulary. -/

lemma isColEnd_false {d c : Char} (h1 : c ≠ d) (h2 : c ≠ '\n') : isColEnd d c = false := by
  simp [isColEnd, h1, h2]

lemma isColEnd_delim (d : Char) : isColEnd d d = true := by simp [isColEnd]

lemma isColEnd_newline (d : Char) : isColEnd d '\n' = true := by simp [isColEnd]

lemma goodCell_tail {d : Char} {c : Char} {t : List Char} (h : goodCell d (c :: t)) :
    goodCell d t := fun x hx => h x (List.mem_cons_of_mem c hx)

lemma goodCell_head {d : Char} {c : Char} {t : List Char} (h : goodCell d (c :: t)) :
    c ≠ d ∧ c ≠ '\n' := h c (List.mem_cons_self c t)

lemma joinCells_cons (d : Char) (c : List Char) {cs : List (List Char)} (h : cs ≠ []) :
    joinCells d (c :: cs) = c ++ d :: joinCells d cs := by
  cases cs with
  | nil => exact absurd rfl h
  | cons c' cs' => rfl

/-! Lemmas about the scanning loop of `getColumnValue`. -/

lemma getLoop_past (col : Int) (d : Char) (l : List Char) :
    ∀ (k : Int), col < k → getLoop col d l k = [] := by
  induction l with
  | nil => intro k _; rfl
  | cons c rest ih =>
    intro k hk
    by_cases hc : isColEnd d c
    · simp [getLoop, hc, ih (k + 1) (by omega)]
    · have hne : ¬(k = col) := by omega
      simp [getLoop, hc, hne, ih k hk]

lemma getLoop_cell_hit (col : Int) (d : Char) (rest : List Char) :
    ∀ (cell : List Char), goodCell d cell →
      getLoop col d (cell ++ rest) col = cell ++ getLoop col d rest col := by
  intro cell
  induction cell with
  | nil => intro _; rfl
  | cons c t ih =>
    intro h
    have hend : isColEnd d c = false := isColEnd_false (goodCell_head h).1 (goodCell_head h).2
    simp [getLoop, hend, ih (goodCell_tail h)]

lemma getLoop_cell_skip (col : Int) (d : Char) (rest : List Char) {k : Int} (hk : k ≠ col) :
    ∀ (cell : List Char), goodCell d cell →
      getLoop col d (cell ++ rest) k = getLoop col d rest k := by
  intro cell
  induction cell with
  | nil => intro _; rfl
  | cons c t ih =>
    intro h
    have hend : isColEnd d c = false := isColEnd_false (goodCell_head h).1 (goodCell_head h).2
    simp [getLoop, hend, hk, ih (goodCell_tail h)]

lemma getLoop_cells (d : Char) (col : Int) :
    ∀ (cells : List (List Char)) (k : Int) (j : Nat),
      (∀ c ∈ cells, goodCell d c) → j < cells.length → k + j = col →
      getLoop col d (joinCells d cells ++ ['\n']) k = cells.getD j [] := by
  intro cells
  induction cells with
  | nil => intro k j _ hj _; simp at hj
  | cons c cs ih =>
    intro k j hg hj hkj
    match j with
    | 0 =>
      have hk : k = col := by omega
      subst hk
      cases cs with
      | nil =>
        rw [show joinCells d [c] = c from rfl,
          getLoop_cell_hit k d ['\n'] c (hg c (List.mem_cons_self c []))]
        simp [getLoop, isColEnd_newline]
      | cons c' cs' =>
        rw [joinCells_cons d c (by simp), List.append_assoc, List.cons_append,
          getLoop_cell_hit k d _ c (hg c (List.mem_cons_self c _))]
        simp [getLoop, isColEnd_delim, getLoop_past k d _ (k + 1) (by omega)]
    | j' + 1 =>
      cases cs with
      | nil => simp at hj
      | cons c' cs' =>
        have hk : k ≠ col := by omega
        rw [joinCells_cons d c (by simp), List.append_assoc, List.cons_append,
          getLoop_cell_skip col d _ hk c (hg c (List.mem_cons_self c _))]
        have hstep : getLoop col d (d :: (joinCells d (c' :: cs') ++ ['\n'])) k =
            getLoop col d (joinCells d (c' :: cs') ++ ['\n']) (k + 1) := by
          simp [getLoop, isColEnd_delim]
        rw [hstep, ih (k + 1) j' (fun x hx => hg x (List.mem_cons_of_mem c hx))
          (by simpa using hj) (by omega)]
        rfl

/-- Cell-level behaviour of `getColumnValue`: on a well-formed row it returns
exactly the requested cell. -/
lemma getColumnValue_cells (d : Char) (cells : List (List Char)) (col : Nat) (n : Int)
    (hg : ∀ c ∈ cells, goodCell d c) (h1 : 1 ≤ col) (h2 : col ≤ cells.length)
    (hn : (col : Int) ≤ n) :
    getColumnValue (mkRowData d cells) col d n = cells.getD (col - 1) [] := by
  rw [getColumnValue, if_neg (by omega), mkRowData,
    getLoop_cells d col cells 1 (col - 1) hg (by omega) (by omega)]

/-! Lemmas about the splicing loop of `setColumnValue`. -/

lemma dropWhile_all_append {p : Char → Bool} (r : List Char) :
    ∀ (l : List Char), (∀ a ∈ l, p a = true) →
      List.dropWhile p (l ++ r) = List.dropWhile p r := by
  intro l
  induction l with
  | nil => intro _; rfl
  | cons c t ih =>
    intro h
    simp only [List.cons_append, List.dropWhile_cons, h c (List.mem_cons_self c t), if_true]
    exact ih (fun a ha => h a (List.mem_cons_of_mem c ha))

lemma setLoop_cell_skip (value : List Char) (col : Int) (d : Char) (rest : List Char)
    {k : Int} (hk : k ≠ col) :
    ∀ (cell : List Char), goodCell d cell →
      setLoop value col d (cell ++ rest) k = cell ++ setLoop value col d rest k := by
  intro cell
  induction cell with
  | nil => intro _; rfl
  | cons c t ih =>
    intro h
    have hend : isColEnd d c = false := isColEnd_false (goodCell_head h).1 (goodCell_head h).2
    simp [setLoop, hend, hk, ih (goodCell_tail h)]

lemma setLoop_colEnd (value : List Char) (col : Int) (d : Char) (rest : List Char)
    {k : Int} (hk : k ≠ col) {c : Char} (hc : isColEnd d c = true) :
    setLoop value col d (c :: rest) k = c :: setLoop value col d rest (k + 1) := by
  simp [setLoop, hk, hc]

lemma setLoop_hit (value : List Char) (col : Int) (d : Char) (r : List Char)
    {x : Char} (hx : isColEnd d x = true) :
    ∀ (cell : List Char), goodCell d cell →
      setLoop value col d (cell ++ x :: r) col = value ++ x :: r := by
  intro cell
  cases cell with
  | nil =>
    simp [setLoop, List.dropWhile_cons, hx]
  | cons c t =>
    intro h
    have hall : ∀ a ∈ c :: t, (fun b => !(isColEnd d b)) a = true := by
      intro a ha
      have := h a ha
      simp [isColEnd_false this.1 this.2]
    have hdw : List.dropWhile (fun b => !(isColEnd d b)) ((c :: t) ++ (x :: r)) = x :: r := by
      rw [dropWhile_all_append (x :: r) (c :: t) hall]
      simp [List.dropWhile_cons, hx]
    simp only [List.cons_append] at hdw ⊢
    simp [setLoop, hdw]

lemma setLoop_cells (d : Char) (col : Int) (value : List Char) :
    ∀ (cells : List (List Char)) (k : Int) (j : Nat),
      (∀ c ∈ cells, goodCell d c) → j < cells.length → k + j = col →
      setLoop value col d (joinCells d cells ++ ['\n']) k =
        joinCells d (cells.set j value) ++ ['\n'] := by
  intro cells
  induction cells with
  | nil => intro k j _ hj _; simp at hj
  | cons c cs ih =>
    intro k j hg hj hkj
    match j with
    | 0 =>
      have hk : k = col := by omega
      subst hk
      cases cs with
      | nil =>
        rw [show joinCells d [c] = c from rfl,
          setLoop_hit value k d [] (isColEnd_newline d) c (hg c (List.mem_cons_self c []))]
        rfl
      | cons c' cs' =>
        rw [joinCells_cons d c (by simp), List.append_assoc, List.cons_append,
          setLoop_hit value k d _ (isColEnd_delim d) c (hg c (List.mem_cons_self c _))]
        rw [List.set_cons_zero, joinCells_cons d value (by simp), List.append_assoc,
          List.cons_append]
    | j' + 1 =>
      cases cs with
      | nil => simp at hj
      | cons c' cs' =>
        have hk : k ≠ col := by omega
        rw [joinCells_cons d c (by simp), List.append_assoc, List.cons_append,
          setLoop_cell_skip value col d _ hk c (hg c (List.mem_cons_self c _)),
          setLoop_colEnd value col d _ hk (isColEnd_delim d),
          ih (k + 1) j' (fun x hx => hg x (List.mem_cons_of_mem c hx))
            (by simpa using hj) (by omega)]
        rw [List.set_cons_succ,
          joinCells_cons d c (by simp [List.length_set]), List.append_assoc, List.cons_append]

/-- Cell-level behaviour of `setColumnValue`: on a well-formed row it replaces
exactly the requested cell with the given bytes (the bytes themselves are
copied verbatim and may even contain delimiters, as `move` exploits). -/
lemma setColumnValue_cells (d : Char) (cells : List (List Char)) (col : Nat) (n : Int)
    (value : List Char) (hg : ∀ c ∈ cells, goodCell d c) (h1 : 1 ≤ col)
    (h2 : col ≤ cells.length) (hn : (col : Int) ≤ n) :
    setColumnValue value (mkRowData d cells) col d n =
      mkRowData d (cells.set (col - 1) value) := by
  rw [setColumnValue, if_neg (by omega), mkRowData,
    setLoop_cells d col value cells 1 (col - 1) hg (by omega) (by omega)]
  rfl

lemma set_getD_self {α : Type} : ∀ (l : List α) (j : Nat) (a : α), j < l.length →
    l.set j (l.getD j a) = l := by
  intro l
  induction l with
  | nil => intro j a hj; simp at hj
  | cons c t ih =>
    intro j a hj
    cases j with
    | zero => rfl
    | succ j' =>
      have := ih j' a (by simpa using hj)
      rw [List.getD, List.get?_eq_getElem?] at this
      simp [List.set_cons_succ, List.getD_cons_succ, List.getD, List.get?_eq_getElem?, this]

/-! Lemmas about the rebuilding loop of `dcols`, specialised to the
single-column deletion `dcols c c` that `move` performs. -/

lemma dcolsLoop_keep (lo hi : Int) (d : Char) {k : Int} (hk : ¬(lo ≤ k ∧ k ≤ hi))
    {c : Char} (hc : c ≠ d) (rest acc : List Char) :
    dcolsLoop lo hi d (c :: rest) k acc = dcolsLoop lo hi d rest k (acc ++ [c]) := by
  simp [dcolsLoop, hk, hc]

lemma dcolsLoop_keep_delim (lo hi : Int) (d : Char) {k : Int} (hk : ¬(lo ≤ k ∧ k ≤ hi))
    (rest acc : List Char) :
    dcolsLoop lo hi d (d :: rest) k acc = dcolsLoop lo hi d rest (k + 1) (acc ++ [d]) := by
  simp [dcolsLoop, hk]

lemma dcolsLoop_skip (lo hi : Int) (d : Char) {k : Int} (hk : lo ≤ k ∧ k ≤ hi)
    {c : Char} (hc : c ≠ d) {rest : List Char} (hr : rest ≠ []) (acc : List Char) :
    dcolsLoop lo hi d (c :: rest) k acc = dcolsLoop lo hi d rest k acc := by
  simp [dcolsLoop, hk, hc, hr]

lemma dcolsLoop_skip_delim (lo hi : Int) (d : Char) {k : Int} (hk : lo ≤ k ∧ k ≤ hi)
    {rest : List Char} (hr : rest ≠ []) (acc : List Char) :
    dcolsLoop lo hi d (d :: rest) k acc = dcolsLoop lo hi d rest (k + 1) acc := by
  simp [dcolsLoop, hk, hr]

lemma dcolsLoop_last_keep (lo hi : Int) (d : Char) {k : Int} (hk : ¬(lo ≤ k ∧ k ≤ hi))
    (c : Char) (acc : List Char) :
    dcolsLoop lo hi d [c] k acc = acc ++ [c] := by
  simp [dcolsLoop, hk]

lemma dcolsLoop_last_skip (lo hi : Int) (d : Char) {k : Int} (hk : lo ≤ k ∧ k ≤ hi)
    (c : Char) (acc : List Char) :
    dcolsLoop lo hi d [c] k acc = acc.dropLast := by
  simp [dcolsLoop, hk]

lemma dcolsLoop_keep_cell (lo hi : Int) (d : Char) {k : Int} (hk : ¬(lo ≤ k ∧ k ≤ hi)) :
    ∀ (cell : List Char), goodCell d cell → ∀ (rest acc : List Char),
      dcolsLoop lo hi d (cell ++ rest) k acc = dcolsLoop lo hi d rest k (acc ++ cell) := by
  intro cell
  induction cell with
  | nil => intro _ rest acc; simp
  | cons c t ih =>
    intro h rest acc
    rw [List.cons_append, dcolsLoop_keep lo hi d hk (goodCell_head h).1,
      ih (goodCell_tail h) rest (acc ++ [c])]
    simp

lemma dcolsLoop_skip_cell (lo hi : Int) (d : Char) {k : Int} (hk : lo ≤ k ∧ k ≤ hi) :
    ∀ (cell : List Char), goodCell d cell → ∀ {rest : List Char}, rest ≠ [] →
      ∀ (acc : List Char),
      dcolsLoop lo hi d (cell ++ rest) k acc = dcolsLoop lo hi d rest k acc := by
  intro cell
  induction cell with
  | nil => intro _ rest _ acc; rfl
  | cons c t ih =>
    intro h rest hr acc
    rw [List.cons_append,
      dcolsLoop_skip lo hi d hk (goodCell_head h).1 (by simp [hr]) acc,
      ih (goodCell_tail h) hr acc]

lemma dcolsLoop_post (c' : Int) (d : Char) :
    ∀ (cells : List (List Char)) (k : Int) (acc : List Char),
      (∀ x ∈ cells, goodCell d x) → c' < k →
      dcolsLoop c' c' d (joinCells d cells ++ ['\n']) k acc =
        acc ++ joinCells d cells ++ ['\n'] := by
  intro cells
  induction cells with
  | nil =>
    intro k acc _ hk
    simpa using dcolsLoop_last_keep c' c' d (by omega) '\n' acc
  | cons c0 cs ih =>
    intro k acc hg hk
    have hnr : ¬(c' ≤ k ∧ k ≤ c') := by omega
    cases cs with
    | nil =>
      rw [show joinCells d [c0] = c0 from rfl,
        dcolsLoop_keep_cell c' c' d hnr c0 (hg c0 (List.mem_cons_self c0 [])),
        dcolsLoop_last_keep c' c' d hnr '\n' (acc ++ c0)]
    | cons c1 cs' =>
      rw [joinCells_cons d c0 (by simp), List.append_assoc, List.cons_append,
        dcolsLoop_keep_cell c' c' d hnr c0 (hg c0 (List.mem_cons_self c0 _)),
        dcolsLoop_keep_delim c' c' d hnr,
        ih (k + 1) (acc ++ c0 ++ [d]) (fun x hx => hg x (List.mem_cons_of_mem c0 hx))
          (by omega)]
      simp

lemma dcolsLoop_erase_mid (c' : Int) (d : Char) :
    ∀ (cells : List (List Char)) (j : Nat) (k : Int) (acc : List Char),
      (∀ x ∈ cells, goodCell d x) → j + 1 < cells.length → k + j = c' →
      dcolsLoop c' c' d (joinCells d cells ++ ['\n']) k acc =
        acc ++ joinCells d (removeAt j cells) ++ ['\n'] := by
  intro cells
  induction cells with
  | nil => intro j k acc _ hj _; simp at hj
  | cons c0 cs ih =>
    intro j k acc hg hj hkj
    cases cs with
    | nil => simp at hj
    | cons c1 cs' =>
      match j with
      | 0 =>
        have hk : k = c' := by omega
        rw [joinCells_cons d c0 (by simp), List.append_assoc, List.cons_append,
          dcolsLoop_skip_cell c' c' d (by omega) c0 (hg c0 (List.mem_cons_self c0 _))
            (by simp) acc,
          dcolsLoop_skip_delim c' c' d (by omega) (by simp) acc,
          dcolsLoop_post c' d (c1 :: cs') (k + 1) acc
            (fun x hx => hg x (List.mem_cons_of_mem c0 hx)) (by omega)]
        rfl
      | j' + 1 =>
        have hk : ¬(c' ≤ k ∧ k ≤ c') := by omega
        rw [joinCells_cons d c0 (by simp), List.append_assoc, List.cons_append,
          dcolsLoop_keep_cell c' c' d hk c0 (hg c0 (List.mem_cons_self c0 _)),
          dcolsLoop_keep_delim c' c' d hk,
          ih j' (k + 1) (acc ++ c0 ++ [d]) (fun x hx => hg x (List.mem_cons_of_mem c0 hx))
            (by simpa using hj) (by omega)]
        have hne : removeAt j' (c1 :: cs') ≠ [] := by
          cases cs' with
          | nil => exfalso; simp at hj; omega
          | cons c2 cs'' =>
            match j' with
            | 0 => simp [removeAt]
            | j'' + 1 => simp [removeAt]
        rw [show removeAt (j' + 1) (c0 :: c1 :: cs') = c0 :: removeAt j' (c1 :: cs') from rfl,
          joinCells_cons d c0 hne]
        simp

lemma dcolsLoop_erase_last (c' : Int) (d : Char) :
    ∀ (cells : List (List Char)) (k : Int) (acc : List Char),
      (∀ x ∈ cells, goodCell d x) → 2 ≤ cells.length → k + (cells.length : Int) = c' + 1 →
      dcolsLoop c' c' d (joinCells d cells ++ ['\n']) k acc =
        acc ++ joinCells d cells.dropLast := by
  intro cells
  induction cells with
  | nil => intro k acc _ h2 _; simp at h2
  | cons c0 cs ih =>
    intro k acc hg h2 hkj
    cases cs with
    | nil => simp at h2
    | cons c1 cs' =>
      cases cs' with
      | nil =>
        have hk : ¬(c' ≤ k ∧ k ≤ c') := by simp at hkj; omega
        have hin : c' ≤ k + 1 ∧ k + 1 ≤ c' := by simp at hkj; omega
        rw [joinCells_cons d c0 (by simp), List.append_assoc, List.cons_append,
          dcolsLoop_keep_cell c' c' d hk c0 (hg c0 (List.mem_cons_self c0 _)),
          dcolsLoop_keep_delim c' c' d hk,
          show joinCells d [c1] = c1 from rfl,
          dcolsLoop_skip_cell c' c' d hin c1 (hg c1 (by simp)) (by simp) (acc ++ c0 ++ [d]),
          dcolsLoop_last_skip c' c' d hin '\n' (acc ++ c0 ++ [d])]
        rw [show acc ++ c0 ++ [d] = (acc ++ c0) ++ [d] from by simp,
          List.dropLast_concat]
        rfl
      | cons c2 cs'' =>
        have hk : ¬(c' ≤ k ∧ k ≤ c') := by simp at hkj ⊢; omega
        rw [joinCells_cons d c0 (by simp), List.append_assoc, List.cons_append,
          dcolsLoop_keep_cell c' c' d hk c0 (hg c0 (List.mem_cons_self c0 _)),
          dcolsLoop_keep_delim c' c' d hk,
          ih (k + 1) (acc ++ c0 ++ [d]) (fun x hx => hg x (List.mem_cons_of_mem c0 hx))
            (by simp) (by simp at hkj ⊢; omega)]
        rw [show (c1 :: c2 :: cs'').dropLast = c1 :: (c2 :: cs'').dropLast from rfl,
          show (c0 :: c1 :: c2 :: cs'').dropLast = c0 :: c1 :: (c2 :: cs'').dropLast from rfl]
        rw [joinCells_cons d c0 (by simp)]
        simp

lemma nl_not_mem_joinCells {d : Char} (hd : d ≠ '\n') :
    ∀ (cells : List (List Char)), (∀ x ∈ cells, goodCell d x) →
      '\n' ∉ joinCells d cells := by
  intro cells
  induction cells with
  | nil => intro _; simp [joinCells]
  | cons c0 cs ih =>
    intro hg
    cases cs with
    | nil =>
      intro hmem
      exact ((hg c0 (by simp)) '\n' hmem).2 rfl
    | cons c1 cs' =>
      rw [joinCells_cons d c0 (by simp)]
      intro hmem
      rcases List.mem_append.mp hmem with h | h
      · exact ((hg c0 (by simp)) '\n' h).2 rfl
      · rcases List.mem_cons.mp h with h' | h'
        · exact hd h'.symm
        · exact ih (fun x hx => hg x (List.mem_cons_of_mem c0 hx)) h'

lemma removeAt_length_sub_one {α : Type} :
    ∀ (l : List α), removeAt (l.length - 1) l = l.dropLast := by
  intro l
  induction l with
  | nil => rfl
  | cons c t ih =>
    cases t with
    | nil => rfl
    | cons c1 t' =>
      show removeAt (t'.length + 1) (c :: c1 :: t') = _
      rw [show removeAt (t'.length + 1) (c :: c1 :: t') =
        c :: removeAt t'.length (c1 :: t') from rfl]
      rw [show (c1 :: t').length - 1 = t'.length from rfl] at ih
      rw [ih]
      rfl

/-- Cell-level behaviour of single-column deletion: `dcols c c` on a
well-formed row with at least two columns removes exactly cell `c` (and its
delimiter) and keeps the terminating newline. -/
lemma dcols_single (d : Char) (cells : List (List Char)) (col : Nat)
    (hd : d ≠ '\n') (hg : ∀ x ∈ cells, goodCell d x) (h1 : 1 ≤ col)
    (h2 : col ≤ cells.length) (hlen : 2 ≤ cells.length) :
    dcols col col (mkRowData d cells) d = (none, mkRowData d (removeAt (col - 1) cells)) := by
  rw [dcols, if_neg (by omega)]
  rcases Nat.lt_or_ge col cells.length with hlt | hge
  · rw [mkRowData, dcolsLoop_erase_mid col d cells (col - 1) 1 [] hg (by omega) (by omega),
      List.nil_append, dcolsNewline, if_pos (List.getLast?_concat _)]
    rfl
  · have hcol : col = cells.length := by omega
    rw [mkRowData, dcolsLoop_erase_last col d cells 1 [] hg hlen (by omega), List.nil_append]
    have hnotmem : '\n' ∉ joinCells d cells.dropLast :=
      nl_not_mem_joinCells hd cells.dropLast
        (fun x hx => hg x (List.dropLast_subset cells hx))
    have hlast : (joinCells d cells.dropLast).getLast? ≠ some '\n' := by
      intro hsome
      rcases h : joinCells d cells.dropLast with _ | ⟨y, ys⟩
      · rw [h] at hsome; simp at hsome
      · rw [h, List.getLast?_eq_getLast (y :: ys) (by simp)] at hsome
        have := List.getLast_mem (l := y :: ys) (by simp)
        rw [Option.some_inj.mp hsome] at this
        rw [h] at hnotmem
        exact hnotmem this
    rw [dcolsNewline, if_neg hlast, hcol, removeAt_length_sub_one cells]
    rfl

/-! List glue for the cell-level description of `move`. -/

lemma length_removeAt {α : Type} :
    ∀ (l : List α) (j : Nat), j < l.length → (removeAt j l).length = l.length - 1 := by
  intro l
  induction l with
  | nil => intro j hj; simp at hj
  | cons c t ih =>
    intro j hj
    cases j with
    | zero => simp [removeAt]
    | succ j' =>
      show (c :: removeAt j' t).length = _
      simp only [List.length_cons]
      rw [ih j' (by simpa using hj)]
      have : 1 ≤ t.length := by
        cases t with
        | nil => simp at hj
        | cons _ _ => simp
      omega

lemma mem_removeAt {α : Type} :
    ∀ (l : List α) (j : Nat) (x : α), x ∈ removeAt j l → x ∈ l := by
  intro l
  induction l with
  | nil => intro j x hx; simp [removeAt] at hx
  | cons c t ih =>
    intro j x hx
    cases j with
    | zero => exact List.mem_cons_of_mem c hx
    | succ j' =>
      rcases List.mem_cons.mp hx with h | h
      · exact h ▸ List.mem_cons_self c t
      · exact List.mem_cons_of_mem c (ih j' x h)

lemma getD_removeAt_lt {α : Type} :
    ∀ (l : List α) (j i : Nat) (a : α), i < j → (removeAt j l).getD i a = l.getD i a := by
  intro l
  induction l with
  | nil => intro j i a _; simp [removeAt]
  | cons c t ih =>
    intro j i a hij
    cases j with
    | zero => omega
    | succ j' =>
      cases i with
      | zero => rfl
      | succ i' =>
        show (c :: removeAt j' t).getD (i' + 1) a = _
        rw [List.getD_cons_succ, List.getD_cons_succ, ih j' i' a (by omega)]

lemma getD_removeAt_ge {α : Type} :
    ∀ (l : List α) (j i : Nat) (a : α), j ≤ i → (removeAt j l).getD i a = l.getD (i + 1) a := by
  intro l
  induction l with
  | nil => intro j i a _; simp [removeAt]
  | cons c t ih =>
    intro j i a hij
    cases j with
    | zero => rw [show removeAt 0 (c :: t) = t from rfl, List.getD_cons_succ]
    | succ j' =>
      cases i with
      | zero => omega
      | succ i' =>
        show (c :: removeAt j' t).getD (i' + 1) a = _
        rw [List.getD_cons_succ, List.getD_cons_succ, ih j' i' a (by omega)]

lemma insertAt_ne_nil {α : Type} : ∀ (j : Nat) (a : α) (l : List α), insertAt j a l ≠ [] := by
  intro j a l
  cases j with
  | zero => simp [insertAt]
  | succ j' =>
    cases l with
    | nil => simp [insertAt]
    | cons c t => simp [insertAt]

lemma joinCells_set_split (d : Char) :
    ∀ (l : List (List Char)) (j : Nat) (m x : List Char), j < l.length →
      joinCells d (l.set j (m ++ d :: x)) = joinCells d (insertAt j m (l.set j x)) := by
  intro l
  induction l with
  | nil => intro j m x hj; simp at hj
  | cons a t ih =>
    intro j m x hj
    cases j with
    | zero =>
      cases t with
      | nil =>
        rw [List.set_cons_zero, List.set_cons_zero,
          show insertAt 0 m [x] = m :: [x] from rfl,
          joinCells_cons d m (by simp)]
        rfl
      | cons b t' =>
        rw [List.set_cons_zero, List.set_cons_zero,
          show insertAt 0 m (x :: b :: t') = m :: x :: b :: t' from rfl,
          joinCells_cons d _ (by simp), joinCells_cons d m (by simp),
          joinCells_cons d x (by simp)]
        simp
    | succ j' =>
      cases t with
      | nil => simp at hj
      | cons b t' =>
        rw [List.set_cons_succ, List.set_cons_succ,
          show insertAt (j' + 1) m (a :: (b :: t').set j' x) =
            a :: insertAt j' m ((b :: t').set j' x) from rfl,
          joinCells_cons d a (by simp), joinCells_cons d a (insertAt_ne_nil j' m _),
          ih j' m x (by simpa using hj)]

/-- Cell-level behaviour of `move`: on a well-formed row whose column count
matches, moving an existing column before another existing column rearranges
the cells as `movedCells` describes, regardless of the order of the two
parameters. -/
lemma moveData_cells (d : Char) (cells : List (List Char)) (col bcol : Nat)
    (hd : d ≠ '\n') (hg : ∀ x ∈ cells, goodCell d x)
    (hc1 : 1 ≤ col) (hc2 : col ≤ cells.length)
    (hb1 : 1 ≤ bcol) (hb2 : bcol ≤ cells.length) (hne : col ≠ bcol) :
    moveData col bcol (mkRowData d cells) d cells.length =
      mkRowData d (movedCells col bcol cells) := by
  have hlen2 : 2 ≤ cells.length := by omega
  have hgoods' : ∀ x ∈ removeAt (col - 1) cells, goodCell d x :=
    fun x hx => hg x (mem_removeAt cells (col - 1) x hx)
  have hlenrm : (removeAt (col - 1) cells).length = cells.length - 1 :=
    length_removeAt cells (col - 1) (by omega)
  rw [moveData, if_neg (by omega),
    if_neg (by intro h; exact hne (by exact_mod_cast h)),
    getColumnValue_cells d cells col _ hg hc1 hc2 (by omega),
    getColumnValue_cells d cells bcol _ hg hb1 hb2 (by omega),
    dcols_single d cells col hd hg hc1 hc2 hlen2]
  set bN : Nat := if col < bcol then bcol - 1 else bcol with hbN
  have hcast : (if (bcol : Int) > (col : Int) then (bcol : Int) - 1 else (bcol : Int)) =
      (bN : Int) := by
    by_cases h : col < bcol
    · rw [if_pos (by exact_mod_cast h), hbN, if_pos h]; omega
    · rw [if_neg (by exact_mod_cast h), hbN, if_neg h]
  have hbN1 : 1 ≤ bN := by rw [hbN]; split <;> omega
  have hbN2 : bN ≤ (removeAt (col - 1) cells).length := by
    rw [hlenrm, hbN]; split <;> omega
  rw [hcast,
    setColumnValue_cells d (removeAt (col - 1) cells) bN _ _ hgoods' hbN1 hbN2
      (by omega)]
  have hGet : (removeAt (col - 1) cells).getD (bN - 1) [] = cells.getD (bcol - 1) [] := by
    by_cases h : col < bcol
    · rw [hbN, if_pos h, getD_removeAt_ge cells (col - 1) (bcol - 1 - 1) [] (by omega)]
      congr 1
      omega
    · rw [hbN, if_neg h, getD_removeAt_lt cells (col - 1) (bcol - 1) [] (by omega)]
  rw [← hGet, mkRowData, mkRowData,
    joinCells_set_split d (removeAt (col - 1) cells) (bN - 1) _ _ (by omega),
    set_getD_self (removeAt (col - 1) cells) (bN - 1) [] (by omega)]
  rw [movedCells]
  have hidx : bN - 1 = (if bcol > col then bcol - 2 else bcol - 1) := by
    rw [hbN]
    by_cases h : col < bcol
    · rw [if_pos h, if_pos (by omega)]
      omega
    · rw [if_neg h, if_neg (by omega)]
  rw [hidx]

/-! Length bookkeeping for rows built from cells. -/

lemma joinCells_length (d : Char) :
    ∀ (cells : List (List Char)), cells ≠ [] →
      (joinCells d cells).length = (cells.map List.length).sum + cells.length - 1 := by
  intro cells
  induction cells with
  | nil => intro h; exact absurd rfl h
  | cons c cs ih =>
    intro _
    cases cs with
    | nil => simp [joinCells]
    | cons c1 cs' =>
      rw [joinCells_cons d c (by simp)]
      have hlen : 1 ≤ (c1 :: cs').length := by simp
      rw [List.length_append, List.length_cons, ih (by simp)]
      simp only [List.map_cons, List.sum_cons, List.length_cons] at *
      omega

/-! Preservation facts about the engine: only `icol`/`acol` touch the shared
column count, and only while processing row number 1; no operation changes the
row number. -/

lemma drows_snd_number (lo hi : Int) (row : Row) : (drows lo hi row).2.number = row.number := by
  rw [drows]
  split_ifs <;> rfl

lemma icol_components (col : Int) (row : Row) (d : Char) (n : Int) :
    (icol col row d n).2.1.number = row.number ∧
      (icol col row d n).2.2 = (if row.data.length + 1 > maxRowSize then n
        else if row.number = 1 then n + 1 else n) := by
  simp only [icol]
  split_ifs <;> simp_all

lemma acol_components (row : Row) (d : Char) (n : Int) :
    (acol row d n).2.1.number = row.number ∧
      (acol row d n).2.2 = (if row.data.length + 1 > maxRowSize then n
        else if row.number = 1 then n + 1 else n) := by
  simp only [acol]
  split_ifs <;> simp_all

lemma applyTableEditingFunction_preserve {row : Row} {f : Function} {d : Char} {n : Int}
    {r' : Row} {n' : Int} {o : List (List Char)} (hnum : row.number ≠ 1)
    (h : applyTableEditingFunction row f d n = .applied r' n' o) :
    n' = n ∧ r'.number = row.number := by
  by_cases h1 : f.name = "irow"
  · rw [applyTableEditingFunction, if_pos h1] at h
    obtain ⟨hr, hn, _⟩ := TEResult.applied.inj h
    exact ⟨hn.symm, by rw [← hr]⟩
  by_cases h2 : f.name = "drow" ∨ f.name = "drows"
  · rw [applyTableEditingFunction, if_neg h1, if_pos h2] at h
    rcases hdr : drows (f.params.getD 0 0)
      (if f.name = "drow" then f.params.getD 0 0 else f.params.getD 1 0) row with ⟨e, r⟩
    rw [hdr] at h
    cases e with
    | some e' => simp at h
    | none =>
      obtain ⟨hr, hn, _⟩ := TEResult.applied.inj h
      have hnm := drows_snd_number (f.params.getD 0 0)
        (if f.name = "drow" then f.params.getD 0 0 else f.params.getD 1 0) row
      rw [hdr] at hnm
      exact ⟨hn.symm, by rw [← hr]; exact hnm⟩
  by_cases h3 : f.name = "icol"
  · rw [applyTableEditingFunction, if_neg h1, if_neg h2, if_pos h3] at h
    rcases hic : icol (f.params.getD 0 0) row d n with ⟨e, r2, n2⟩
    rw [hic] at h
    cases e with
    | some e' => simp at h
    | none =>
      obtain ⟨hr, hn, _⟩ := TEResult.applied.inj h
      obtain ⟨hnm, hnc⟩ := icol_components (f.params.getD 0 0) row d n
      rw [hic] at hnm hnc
      simp only at hnm hnc
      rw [if_neg hnum] at hnc
      constructor
      · rw [hn.symm, hnc]
        split_ifs <;> rfl
      · rw [← hr]
        exact hnm
  by_cases h4 : f.name = "acol"
  · rw [applyTableEditingFunction, if_neg h1, if_neg h2, if_neg h3, if_pos h4] at h
    rcases hac : acol row d n with ⟨e, r2, n2⟩
    rw [hac] at h
    cases e with
    | some e' => simp at h
    | none =>
      obtain ⟨hr, hn, _⟩ := TEResult.applied.inj h
      obtain ⟨hnm, hnc⟩ := acol_components row d n
      rw [hac] at hnm hnc
      simp only at hnm hnc
      rw [if_neg hnum] at hnc
      constructor
      · rw [hn.symm, hnc]
        split_ifs <;> rfl
      · rw [← hr]
        exact hnm
  by_cases h5 : f.name = "dcol" ∨ f.name = "dcols"
  · rw [applyTableEditingFunction, if_neg h1, if_neg h2, if_neg h3, if_neg h4, if_pos h5] at h
    rcases hdr : dcols (f.params.getD 0 0)
      (if f.name = "dcol" then f.params.getD 0 0 else f.params.getD 1 0) row.data d with ⟨e, dt⟩
    rw [hdr] at h
    cases e with
    | some e' => simp at h
    | none =>
      obtain ⟨hr, hn, _⟩ := TEResult.applied.inj h
      exact ⟨hn.symm, by rw [← hr]⟩
  · rw [applyTableEditingFunction, if_neg h1, if_neg h2, if_neg h3, if_neg h4, if_neg h5] at h
    simp at h

lemma applyDataProcessingFunction_number {row : Row} {f : Function} {d : Char} {n : Int}
    {r' : Row} (h : applyDataProcessingFunction row f d n = .applied r') :
    r'.number = row.number := by
  by_cases h1 : f.name = "cset"
  · rw [applyDataProcessingFunction, if_pos h1, cset] at h
    split_ifs at h with hcap
    all_goals exact (DPResult.applied.inj h) ▸ rfl
  by_cases h2 : f.name = "tolower"
  · rw [applyDataProcessingFunction, if_neg h1, if_pos h2] at h
    exact (DPResult.applied.inj h) ▸ rfl
  by_cases h3 : f.name = "toupper"
  · rw [applyDataProcessingFunction, if_neg h1, if_neg h2, if_pos h3] at h
    exact (DPResult.applied.inj h) ▸ rfl
  by_cases h4 : f.name = "round"
  · rw [applyDataProcessingFunction, if_neg h1, if_neg h2, if_neg h3, if_pos h4,
      roundColumnValue] at h
    split_ifs at h with hval
    all_goals exact (DPResult.applied.inj h) ▸ rfl
  by_cases h5 : f.name = "int"
  · rw [applyDataProcessingFunction, if_neg h1, if_neg h2, if_neg h3, if_neg h4, if_pos h5,
      removeColumnDecimalPart] at h
    split_ifs at h with hval
    all_goals exact (DPResult.applied.inj h) ▸ rfl
  by_cases h6 : f.name = "copy"
  · rw [applyDataProcessingFunction, if_neg h1, if_neg h2, if_neg h3, if_neg h4, if_neg h5,
      if_pos h6] at h
    have hr := DPResult.applied.inj h
    rw [← hr, copy]
    split_ifs <;> rfl
  by_cases h7 : f.name = "swap"
  · rw [applyDataProcessingFunction, if_neg h1, if_neg h2, if_neg h3, if_neg h4, if_neg h5,
      if_neg h6, if_pos h7] at h
    have hr := DPResult.applied.inj h
    rw [← hr]
    simp only [swap]
    split_ifs <;> rfl
  by_cases h8 : f.name = "move"
  · rw [applyDataProcessingFunction, if_neg h1, if_neg h2, if_neg h3, if_neg h4, if_neg h5,
      if_neg h6, if_neg h7, if_pos h8] at h
    exact (DPResult.applied.inj h) ▸ rfl
  · rw [applyDataProcessingFunction, if_neg h1, if_neg h2, if_neg h3, if_neg h4, if_neg h5,
      if_neg h6, if_neg h7, if_neg h8] at h
    exact absurd h (by simp)

lemma processOps_ncols (d : Char) :
    ∀ (fs : List Function) (row : Row) (n : Int) (tc dc : Bool) (out : List (List Char))
      (r' : Row) (n' : Int) (tc' dc' : Bool) (out' : List (List Char)),
      row.number ≠ 1 →
      processOps d fs row n tc dc out = .ok (r', n', tc', dc', out') → n' = n := by
  intro fs
  induction fs with
  | nil =>
    intro row n tc dc out r' n' tc' dc' out' _ h
    simp only [processOps, Except.ok.injEq, Prod.mk.injEq] at h
    exact h.2.1.symm
  | cons f rest ih =>
    intro row n tc dc out r' n' tc' dc' out' hnum h
    rw [processOps] at h
    rcases happ : applyTableEditingFunction row f d n with ⟨r2, n2, o2⟩ | e | _
    · rw [happ] at h
      simp only [] at h
      obtain ⟨hn2, hnum2⟩ := applyTableEditingFunction_preserve hnum happ
      by_cases hsel : f.selectFunction.name ≠ ""
      · rw [if_pos hsel] at h
        exact absurd h (by simp)
      · rw [if_neg hsel] at h
        by_cases hdel : r2.deleted = true
        · rw [if_pos hdel] at h
          simp only [Except.ok.injEq, Prod.mk.injEq] at h
          rw [← h.2.1, hn2]
        · rw [if_neg hdel] at h
          rw [hn2] at h
          exact ih r2 n true dc (out ++ o2) r' n' tc' dc' out' (by rw [hnum2]; exact hnum) h
    · rw [happ] at h
      exact absurd h (by simp)
    · rw [happ] at h
      simp only [] at h
      by_cases hdc : dc = true
      · rw [if_pos hdc] at h
        exact absurd h (by simp)
      · rw [if_neg hdc] at h
        by_cases hacc : acceptsSelection row f.selectFunction d n = false
        · rw [if_pos hacc] at h
          exact ih row n tc dc out r' n' tc' dc' out' hnum h
        · rw [if_neg hacc] at h
          rcases hdp : applyDataProcessingFunction row f d n with r2 | e | _
          · rw [hdp] at h
            simp only [] at h
            exact ih r2 n tc true out r' n' tc' dc' out'
              (by rw [applyDataProcessingFunction_number hdp]; exact hnum) h
          · rw [hdp] at h
            exact absurd h (by simp)
          · rw [hdp] at h
            simp only [] at h
            exact ih row n tc dc out r' n' tc' dc' out' hnum h

/-! Concrete fixtures used by the claim theorems below. -/

/-- An empty (absent) selection. -/
def noSelection : SelectFunction := ⟨"", [0, 0], [[], []]⟩

/-- The selection compiled from the tokens `rows 1 2`. -/
def rows12 : SelectFunction := ⟨"rows", [1, 2], [[], []]⟩

/-- The function compiled from `rows 1 2 drow 1`. -/
def drowSelFn : Function := ⟨"drow", [1, 0, 0, 0], [[], [], [], []], rows12⟩

/-- The function compiled from `rows 1 2 drows 5 3`. -/
def drowsSelFn : Function := ⟨"drows", [5, 3, 0, 0], [[], [], [], []], rows12⟩

/-- A two-column input row `"a,b\n"` with number 1. -/
def rowAB : Row := ⟨"a,b\n".toList, 1, false, false⟩

/-! ## C1 -/

/-- C1 (amended): attaching a selection predicate to a table-editing operation
is rejected at execution time: whenever the guarded table-editing operation at
the head of the compiled list itself applies without error, processing any row
stops with the `selectionOnTableEdit` error (a non-zero exit in `main`); in
particular the argument list `["rows","1","2","drow","1"]` compiles to a
single `drow` carrying the `rows` selection, and processing any row raises
`selectionOnTableEdit`.  (The amendment restricts the original claim to
operations whose own application succeeds: when the operation itself fails,
e.g. `drows` with `from > to`, that error is reported first — see the
counterexample.) -/
theorem C1_selection_on_table_edit :
    (∀ (f : Function) (fs : List Function) (row : Row) (d : Char) (n : Int)
      (r' : Row) (n' : Int) (o : List (List Char)),
      f.selectFunction.name ≠ "" →
      applyTableEditingFunction row f d n = .applied r' n' o →
      processRow (f :: fs) row d n = .error .selectionOnTableEdit) ∧
    (∃ fs : List Function,
      parseInputArguments ["sheet", "rows", "1", "2", "drow", "1"] 1 = .ok fs ∧
      ∀ (row : Row) (d : Char) (n : Int),
        processRow fs row d n = .error .selectionOnTableEdit) := by
  constructor
  · intro f fs row d n r' n' o hsel happ
    rw [processRow]
    have hops : processOps d (f :: fs) row n false false [] = .error .selectionOnTableEdit := by
      rw [processOps, happ]
      simp only []
      rw [if_pos hsel]
    rw [hops]
  · refine ⟨[drowSelFn], by rfl, ?_⟩
    intro row d n
    have happ : applyTableEditingFunction row drowSelFn d n =
        .applied (if 1 ≤ row.number ∧ row.number ≤ 1 then { row with deleted := true }
          else row) n [] := by
      rw [applyTableEditingFunction, if_neg (by decide), if_pos (by decide),
        show (if drowSelFn.name = "drow" then drowSelFn.params.getD 0 0
          else drowSelFn.params.getD 1 0) = (1 : Int) from rfl,
        show drowSelFn.params.getD 0 0 = (1 : Int) from rfl,
        drows, if_neg (by omega)]
    rw [processRow]
    have hops : processOps d [drowSelFn] row n false false [] =
        .error .selectionOnTableEdit := by
      rw [processOps, happ]
      simp only []
      rw [if_pos (by rw [drowSelFn]; simp [rows12])]
    rw [hops]

/-- C1 counterexample: on the command list `rows 1 2 drows 5 3` — a selection
attached to a table-editing operation — the engine reports `badRange` (the
`drows` argument check fires first), not `selectionOnTableEdit` as the claim
requires for every such command list. -/
theorem C1_counterexample :
    parseInputArguments ["sheet", "rows", "1", "2", "drows", "5", "3"] 1 = .ok [drowsSelFn] ∧
    processRow [drowsSelFn] rowAB ',' 2 = .error .badRange ∧
    Err.badRange ≠ Err.selectionOnTableEdit := by
  refine ⟨by rfl, by rfl, by decide⟩

/-- C1 witness: the amended theorem applied to the compiled `rows 1 2 drow 1`
operation on the concrete row `"a,b\n"`. -/
theorem C1_witness :
    (drowSelFn.selectFunction.name ≠ "" ∧
      applyTableEditingFunction rowAB drowSelFn ',' 2 =
        .applied ⟨"a,b\n".toList, 1, true, false⟩ 2 []) ∧
    processRow [drowSelFn] rowAB ',' 2 = .error .selectionOnTableEdit :=
  ⟨⟨by decide, by decide⟩,
    C1_selection_on_table_edit.1 drowSelFn [] rowAB ',' 2 ⟨"a,b\n".toList, 1, true, false⟩ 2 []
      (by decide) (by decide)⟩

/-! ## C2 -/

/-- C2 (code bug): the spec says `round`/`int` must fail with `InvalidNumber`
exactly on cells that are not numeric (optional `-`, digits, optional `.` with
digits).  The code's `isValidNumber` mis-parenthesises its test —
`(c < '0' || c > '9') && (i == 0 && c != '-')` is false for every `i ≥ 1` — so
only the first character is checked: `"12x"` passes validation and `round`
succeeds on it, while the spec's numeric predicate rejects it.  On `"abc"`
(bad first character) both agree. -/
theorem C2_round_validation_bug :
    isValidNumber "12x".toList = true ∧
    specNumeric "12x".toList = false ∧
    (roundColumnValue 1 ⟨"12x\n".toList, 1, false, false⟩ ',' 1).1 = none ∧
    (removeColumnDecimalPart 1 ⟨"12x\n".toList, 1, false, false⟩ ',' 1).1 = none ∧
    isValidNumber "abc".toList = false ∧
    specNumeric "abc".toList = false ∧
    (roundColumnValue 1 ⟨"abc\n".toList, 1, false, false⟩ ',' 1).1 = some .invalidNumber := by
  refine ⟨by decide, by decide, by decide, by decide, by decide, by decide, by decide⟩

/-! ## C3 -/

/-- C3: for `from > to`, both `drows` and `dcols` fail with `badRange` and
return the row (buffer, deleted flag — and hence size) completely unchanged:
the range check precedes every mutation. -/
theorem C3_bad_range_no_mutation (lo hi : Int) (row : Row) (data : List Char) (d : Char)
    (h : lo > hi) :
    drows lo hi row = (some .badRange, row) ∧ dcols lo hi data d = (some .badRange, data) :=
  ⟨by rw [drows, if_pos h], by rw [dcols, if_pos h]⟩

/-- C3 witness: the theorem applied at `from = 2 > 1 = to` on concrete data. -/
theorem C3_witness :
    (2 : Int) > 1 ∧
    drows 2 1 rowAB = (some .badRange, rowAB) ∧
    dcols 2 1 "a,b\n".toList ',' = (some .badRange, "a,b\n".toList) :=
  ⟨by decide, (C3_bad_range_no_mutation 2 1 rowAB "a,b\n".toList ',' (by decide)).1,
    (C3_bad_range_no_mutation 2 1 rowAB "a,b\n".toList ',' (by decide)).2⟩

/-! ## C4 -/

/-- C4 (amended): `getColumnValue` cannot fail — the C function returns
`void` and no `ColumnNotFound` error exists on this path; for a column number
beyond the column count it returns with the output buffer cleared (the
`memset` runs before the early return), so the caller sees the empty value
and no stale data. -/
theorem C4_out_of_range_cleared (data : List Char) (col : Int) (d : Char) (n : Int)
    (h : col > n) : getColumnValue data col d n = [] := by
  rw [getColumnValue, if_pos h]

/-- A `tolower` on column 5 of a 2-column table (reads the column through
`getColumnValue`). -/
def tolowerOutFn : Function := ⟨"tolower", [5, 0, 0, 0], [[], [], [], []], noSelection⟩

/-- A two-column, space-delimited row `"a b\n"` with number 1. -/
def rowSpaceAB : Row := ⟨"a b\n".toList, 1, false, false⟩

/-- C4 counterexample: reading column 5 of a 2-column row yields the cleared
buffer and the engine carries on and emits the row — the run succeeds, no
`ColumnNotFound` failure is ever reported, contradicting the claim that
`getColumnValue` fails in this situation. -/
theorem C4_counterexample :
    getColumnValue "a b\n".toList 5 ' ' 2 = [] ∧
    processRow [tolowerOutFn] rowSpaceAB ' ' 2 =
      .ok (rowSpaceAB, 2, ["a b\n".toList]) := by
  refine ⟨by decide, by rfl⟩

/-- C4 witness: the amended theorem applied at column 5 of a 2-column row. -/
theorem C4_witness :
    (5 : Int) > 2 ∧ getColumnValue "a b\n".toList 5 ' ' 2 = [] :=
  ⟨by decide, C4_out_of_range_cleared "a b\n".toList 5 ' ' 2 (by decide)⟩

/-! ## C5 -/

/-- Well-formedness of a cell is decidable (used by concrete witnesses). -/
instance goodCellDecidable (d : Char) (cell : List Char) : Decidable (goodCell d cell) :=
  List.decidableBAll (fun c => c ≠ d ∧ c ≠ '\n') cell

/-- A 103-column row: a 1-byte first cell followed by 102 cells of 99 bytes —
10202 bytes including the newline, within the 10240-byte row capacity. -/
def overflowCells : List (List Char) := ['a'] :: List.replicate 102 (List.replicate 99 'a')

/-- C5 (code-bug evidence): splicing a 100-byte value (within the cell
capacity) over the 1-byte first cell of this 10202-byte row produces a
10301-byte row, beyond the 10240-byte capacity — and `setColumnValue` simply
returns it: the function is `void` in C, performs no capacity check and can
report no `RowOverflow`; in the C original this situation is an out-of-bounds
write past the row buffer. -/
theorem C5_no_overflow_check :
    (mkRowData ',' overflowCells).length = 10202 ∧
    (mkRowData ',' overflowCells).length ≤ maxRowSize ∧
    (List.replicate 100 'b').length ≤ maxCellSize ∧
    (setColumnValue (List.replicate 100 'b') (mkRowData ',' overflowCells) 1 ',' 103).length =
      10301 ∧
    maxRowSize < 10301 := by
  have hg : ∀ x ∈ overflowCells, goodCell ',' x := by
    intro x hx
    rcases List.mem_cons.mp hx with h | h
    · subst h
      intro c hc
      simp only [List.mem_singleton] at hc
      subst hc
      exact ⟨by decide, by decide⟩
    · have hx' := List.eq_of_mem_replicate h
      subst hx'
      intro c hc
      have hc' := List.eq_of_mem_replicate hc
      subst hc'
      exact ⟨by decide, by decide⟩
  have hlen : overflowCells.length = 103 := by simp [overflowCells]
  have hsum : (overflowCells.map List.length).sum = 10099 := by
    rw [overflowCells]
    simp [List.map_replicate, List.sum_replicate]
  have h1 : (mkRowData ',' overflowCells).length = 10202 := by
    rw [mkRowData, List.length_append,
      joinCells_length ',' overflowCells (by rw [overflowCells]; simp), hsum, hlen]
    decide
  have hset : setColumnValue (List.replicate 100 'b') (mkRowData ',' overflowCells) 1 ',' 103 =
      mkRowData ',' (overflowCells.set 0 (List.replicate 100 'b')) := by
    have := setColumnValue_cells ',' overflowCells 1 103 (List.replicate 100 'b') hg
      (by omega) (by rw [hlen]; omega) (by decide)
    simpa using this
  have hset0 : overflowCells.set 0 (List.replicate 100 'b') =
      List.replicate 100 'b' :: List.replicate 102 (List.replicate 99 'a') := by
    rw [overflowCells]
    rfl
  have h2 : (setColumnValue (List.replicate 100 'b') (mkRowData ',' overflowCells)
      1 ',' 103).length = 10301 := by
    rw [hset, hset0, mkRowData, List.length_append, joinCells_length ',' _ (by simp)]
    simp [List.map_replicate, List.sum_replicate]
  exact ⟨h1, by rw [h1]; norm_num [maxRowSize], by simp [maxCellSize], h2,
    by norm_num [maxRowSize]⟩

/-! ## C6 -/

/-- C6: the shared column count changes only through `icol`/`acol`, exactly
once per successful application, and only while processing row number 1: the
count after `icol`/`acol` is `n + 1` exactly when the row number is 1 and the
capacity check passes, and `n` otherwise; moreover the whole per-row engine
run leaves the column count unchanged on every row whose number is not 1. -/
theorem C6_column_count_once :
    (∀ (col : Int) (row : Row) (d : Char) (n : Int),
      (icol col row d n).2.2 = (if row.data.length + 1 > maxRowSize then n
        else if row.number = 1 then n + 1 else n) ∧
      (acol row d n).2.2 = (if row.data.length + 1 > maxRowSize then n
        else if row.number = 1 then n + 1 else n)) ∧
    (∀ (d : Char) (fs : List Function) (row : Row) (n : Int)
      (r' : Row) (n' : Int) (tc' dc' : Bool) (out' : List (List Char)),
      row.number ≠ 1 →
      processOps d fs row n false false [] = .ok (r', n', tc', dc', out') → n' = n) := by
  refine ⟨fun col row d n => ⟨(icol_components col row d n).2, (acol_components row d n).2⟩,
    fun d fs row n r' n' tc' dc' out' hnum h =>
      processOps_ncols d fs row n false false [] r' n' tc' dc' out' hnum h⟩

/-- C6 witness: icol on row number 1 bumps the count (2 to 3); a run over a
row with number 2 returns the count unchanged. -/
theorem C6_witness :
    ((icol 1 rowAB ',' 2).2.2 = (if ("a,b\n".toList).length + 1 > maxRowSize then 2
      else if (1 : Int) = 1 then 2 + 1 else 2) ∧
    (2 : Int) ≠ 1 ∧
    processOps ',' [] ⟨"a,b\n".toList, 2, false, false⟩ 7 false false [] =
      .ok (⟨"a,b\n".toList, 2, false, false⟩, 7, false, false, []) ∧
    (7 : Int) = 7) :=
  ⟨(C6_column_count_once.1 1 rowAB ',' 2).1, by decide, by rfl,
    C6_column_count_once.2 ',' [] ⟨"a,b\n".toList, 2, false, false⟩ 7
      ⟨"a,b\n".toList, 2, false, false⟩ 7 false false [] (by decide) (by rfl)⟩

/-! ## C7 -/

/-- C7 (amended): after the input ends, one blank row (columnCount−1
delimiters plus a newline) is emitted per RAW argv token equal to `"arow"`
after the skipped prefix — the scan runs over the raw tokens, not the
compiled operation list, so an `"arow"` that is merely an argument value
(e.g. a `cset` string value) also triggers a blank row; see the
counterexample. -/
theorem C7_arow_raw_token_scan (args : List String) (skipped : Nat) (d : Char) (n : Int) :
    applyAppendRowFunctions args skipped d n =
      List.replicate (List.count "arow" (args.drop skipped)) (newRow d n) := by
  rw [applyAppendRowFunctions]
  generalize args.drop skipped = l
  induction l with
  | nil => rfl
  | cons x t ih =>
    cases hx : (x == "arow") with
    | true => simp [List.filter_cons, List.count_cons, hx, ih, List.replicate_succ]
    | false => simp [List.filter_cons, List.count_cons, hx, ih]

/-- The function compiled from `cset 1 arow` (the string value is `"arow"`). -/
def csetArowFn : Function := ⟨"cset", [1, -1, 0, 0], [[], "arow".toList, [], []], noSelection⟩

/-- C7 counterexample: `["cset","1","arow"]` compiles to a single `cset`
operation — no `arow` operation at all — yet `applyAppendRowFunctions` emits
one blank row, because the raw token `"arow"` (the cset value) matches the
scan; the claim says no blank row may be emitted for such tokens. -/
theorem C7_counterexample :
    parseInputArguments ["sheet", "cset", "1", "arow"] 1 = .ok [csetArowFn] ∧
    csetArowFn.name = "cset" ∧ csetArowFn.name ≠ "arow" ∧
    applyAppendRowFunctions ["sheet", "cset", "1", "arow"] 1 ',' 2 = [[',', '\n']] := by
  refine ⟨by rfl, by decide, by decide, by rfl⟩

/-! ## C8 -/

/-- C8 (amended): `move` enforces no ordering between its two parameters and
can report no error — the C function returns `void`, and no `MoveOrderError`
exists anywhere in the program.  For every well-formed row and every pair of
distinct existing columns (in either order) it relocates `col`'s value to sit
immediately before `beforeCol`'s value, implemented as: read both values,
delete column `col` with `dcols(col,col)`, then re-set
`moving ++ delimiter ++ second` at the target position, shifted one left when
`beforeCol > col`. -/
theorem C8_move_no_order_error (d : Char) (cells : List (List Char)) (col bcol : Nat)
    (num : Int) (del lst : Bool)
    (hd : d ≠ '\n') (hg : ∀ x ∈ cells, goodCell d x)
    (hc1 : 1 ≤ col) (hc2 : col ≤ cells.length)
    (hb1 : 1 ≤ bcol) (hb2 : bcol ≤ cells.length) (hne : col ≠ bcol) :
    move col bcol ⟨mkRowData d cells, num, del, lst⟩ d cells.length =
      ⟨mkRowData d (movedCells col bcol cells), num, del, lst⟩ := by
  rw [move, moveData_cells d cells col bcol hd hg hc1 hc2 hb1 hb2 hne]

/-- The function compiled from `move 1 3`. -/
def moveFn13 : Function := ⟨"move", [1, 3, 0, 0], [[], [], [], []], noSelection⟩

/-- A three-column input row `"a,b,c\n"` with number 1. -/
def rowABC : Row := ⟨"a,b,c\n".toList, 1, false, false⟩

/-- C8 counterexample: `move 1 3` has `beforeCol = 3 > 1 = col`, which the
claim says must fail with `MoveOrderError`; instead the operation succeeds —
the engine completes with `.ok`, relocating column 1 before column 3
(`"a,b,c\n"` becomes `"b,a,c\n"`). -/
theorem C8_counterexample :
    moveData 1 3 "a,b,c\n".toList ',' 3 = "b,a,c\n".toList ∧
    processRow [moveFn13] rowABC ',' 3 =
      .ok (⟨"b,a,c\n".toList, 1, false, false⟩, 3, ["b,a,c\n".toList]) := by
  refine ⟨by decide, by rfl⟩

/-- C8 witness: the amended theorem applied to `move 2 1` (the
`beforeCol ≤ col` direction) on the concrete row `"a,b,c\n"`. -/
theorem C8_witness :
    (((',' : Char) ≠ '\n') ∧ (∀ x ∈ [['a'], ['b'], ['c']], goodCell ',' x) ∧
      (1 : Nat) ≤ 2 ∧ (2 : Nat) ≤ 3 ∧ (2 : Nat) ≠ 1) ∧
    move 2 1 ⟨mkRowData ',' [['a'], ['b'], ['c']], 1, false, false⟩ ','
        ([['a'], ['b'], ['c']] : List (List Char)).length =
      ⟨mkRowData ',' (movedCells 2 1 [['a'], ['b'], ['c']]), 1, false, false⟩ :=
  ⟨⟨by decide, by decide, by decide, by decide, by decide⟩,
    C8_move_no_order_error ',' [['a'], ['b'], ['c']] 2 1 1 false false (by decide) (by decide)
      (by decide) (by decide) (by decide) (by decide) (by decide)⟩

/-! ## C9 -/

/-- C9: reading an existing column with `getColumnValue` and writing the
unchanged value back with `setColumnValue` leaves the row buffer
byte-identical (and hence the recomputed size identical); stated for
well-formed rows whose cells fit the cell buffer, the domain the program
admits (`verifyRow` enforces the cell-size cap on every input row). -/
theorem C9_get_set_roundtrip (d : Char) (cells : List (List Char)) (col : Nat) (n : Int)
    (hg : ∀ x ∈ cells, goodCell d x) (h1 : 1 ≤ col) (h2 : col ≤ cells.length)
    (hn : (col : Int) ≤ n) (_hcell : ∀ x ∈ cells, x.length < maxCellSize) :
    setColumnValue (getColumnValue (mkRowData d cells) col d n) (mkRowData d cells) col d n =
      mkRowData d cells := by
  rw [getColumnValue_cells d cells col n hg h1 h2 hn,
    setColumnValue_cells d cells col n _ hg h1 h2 hn,
    set_getD_self cells (col - 1) [] (by omega)]

/-- C9 witness: the round trip on column 2 of the row `"a,bb,c\n"`. -/
theorem C9_witness :
    ((∀ x ∈ [['a'], ['b', 'b'], ['c']], goodCell ',' x) ∧ (1 : Nat) ≤ 2 ∧
      (2 : Nat) ≤ 3 ∧ ((2 : Nat) : Int) ≤ 3 ∧
      (∀ x ∈ [['a'], ['b', 'b'], ['c']], x.length < maxCellSize)) ∧
    setColumnValue (getColumnValue (mkRowData ',' [['a'], ['b', 'b'], ['c']]) 2 ',' 3)
        (mkRowData ',' [['a'], ['b', 'b'], ['c']]) 2 ',' 3 =
      mkRowData ',' [['a'], ['b', 'b'], ['c']] :=
  ⟨⟨by decide, by decide, by decide, by decide, by decide⟩,
    C9_get_set_roundtrip ',' [['a'], ['b', 'b'], ['c']] 2 3 (by decide) (by decide)
      (by decide) (by decide) (by decide)⟩

/-! ## C10 -/

/-- C10: `drow n` behaves exactly like `drows n n`, and `dcol n` exactly like
`dcols n n`: the dispatcher copies the single parameter into the second slot,
so the two compiled operations produce identical results (same row bytes,
deleted flag, column count and error outcome) on every row, whatever trailing
parameters or attached data the two `Function` records carry. -/
theorem C10_single_equals_range (row : Row) (d : Char) (ncols : Int) (n : Int)
    (t1 t2 : List Int) (s1 s2 : List (List Char)) (sel1 sel2 : SelectFunction)
    (_h : 1 ≤ n) :
    applyTableEditingFunction row ⟨"drow", n :: t1, s1, sel1⟩ d ncols =
      applyTableEditingFunction row ⟨"drows", n :: n :: t2, s2, sel2⟩ d ncols ∧
    applyTableEditingFunction row ⟨"dcol", n :: t1, s1, sel1⟩ d ncols =
      applyTableEditingFunction row ⟨"dcols", n :: n :: t2, s2, sel2⟩ d ncols := by
  constructor
  · rw [applyTableEditingFunction, applyTableEditingFunction]
    simp
  · rw [applyTableEditingFunction, applyTableEditingFunction]
    simp

/-- C10 witness: `drow 1` versus `drows 1 1` and `dcol 1` versus `dcols 1 1`
on the concrete row `"a,b\n"`. -/
theorem C10_witness :
    (1 : Int) ≥ 1 ∧
    applyTableEditingFunction rowAB ⟨"drow", [1], [], noSelection⟩ ',' 2 =
      applyTableEditingFunction rowAB ⟨"drows", [1, 1], [], noSelection⟩ ',' 2 ∧
    applyTableEditingFunction rowAB ⟨"dcol", [1], [], noSelection⟩ ',' 2 =
      applyTableEditingFunction rowAB ⟨"dcols", [1, 1], [], noSelection⟩ ',' 2 :=
  ⟨by decide,
    (C10_single_equals_range rowAB ',' 2 1 [] [] [] [] noSelection noSelection (by decide)).1,
    (C10_single_equals_range rowAB ',' 2 1 [] [] [] [] noSelection noSelection (by decide)).2⟩

end Sheet

